import Mathlib

/-!
Verification of the range-Doppler visualization module `pyapril/RDTools.py`.

The module is embedded shallowly:
* a range-Doppler matrix is a `List (List ℂ)` (row = Doppler bin, column = range bin);
* `numpy` floats are modelled by `ℝ` (scalar parameters that only pass through
  field operations and comparisons are modelled by `ℚ`, which is exact for them);
* `np.log10 x` is modelled by `Real.logb 10 x`;
* `numpy` fancy indexing failure (`IndexError`) is modelled by `Option`;
* in-place mutation versus rebinding of the `rd_matrix` argument is modelled by
  returning the post-call state of the caller's array as the first component of
  the `*_full` functions: `rd_matrix /= ...` updates it, `rd_matrix = ...`
  rebinds a fresh array and leaves the caller's array untouched.
-/

namespace RDTools

/-- A complex range-Doppler matrix, indexed `[Doppler bin, range bin]`. -/
abbrev Mat := List (List ℂ)

/-- A real (dB) matrix, the result of the dynamic-range compression. -/
abbrev RMat := List (List ℝ)

/-- `np.max` over a flat list of reals (junk value `0` on the empty list, on
which `np.max` raises; theorems assume nonemptiness where it matters). -/
noncomputable def npMax : List ℝ → ℝ
  | [] => 0
  | x :: xs => xs.foldl max x

/-- `np.max(np.abs(rd_matrix))`: the global maximum magnitude. -/
noncomputable def maxAbs (m : Mat) : ℝ := npMax (m.flatten.map fun x => Complex.abs x)

/-- `rd_matrix /= np.max(np.abs(rd_matrix))`: the matrix scaled so that its
maximum magnitude is 1. -/
noncomputable def scaleByMax (m : Mat) : Mat :=
  m.map fun r => r.map fun x => x / ((maxAbs m : ℝ) : ℂ)

/-- Python/numpy index resolution on an axis of size `n`: nonnegative indices
below `n` are used directly, negative indices wrap from the end, anything else
raises `IndexError` (modelled as `none`). -/
def pyIdx (n : ℕ) (i : ℤ) : Option ℕ :=
  if 0 ≤ i ∧ i < (n : ℤ) then some i.toNat
  else if -(n : ℤ) ≤ i ∧ i < 0 then some (i + n).toNat
  else none

/-- `rd_matrix[i, j]` with numpy index semantics. -/
def pyGet (m : Mat) (i j : ℤ) : Option ℂ :=
  match pyIdx m.length i with
  | none => none
  | some r =>
    match m.get? r with
    | none => none
    | some row =>
      match pyIdx row.length j with
      | none => none
      | some c => row.get? c

/-- Total version of `pyGet` (defaulting to `0`); only consulted where
`windowOk` guarantees the access succeeds. -/
noncomputable def pyGetD (m : Mat) (i j : ℤ) : ℂ := (pyGet m i j).getD 0

/-- `np.arange(-w, w + 1)`: the symmetric window offsets `-w, …, w`. -/
def arangeSym (w : ℕ) : List ℤ := (List.range (2 * w + 1)).map fun k : ℕ => (k : ℤ) - w

/-- All accesses of the noise-floor estimation window succeed (no
`IndexError`). -/
def windowOk (m : Mat) (dci rci : ℤ) (wl ww : ℕ) : Bool :=
  (arangeSym wl).all fun wi =>
    (arangeSym ww).all fun wj => (pyGet m (dci + wj) (rci + wi)).isSome

/-- The nested accumulation loop
`for wi in …: for wj in …: noise_floor += np.abs(rd_matrix[dci+wj, rci+wi])**2`. -/
noncomputable def noiseFloorSum (m : Mat) (dci rci : ℤ) (wl ww : ℕ) : ℝ :=
  (arangeSym wl).foldl
    (fun acc wi =>
      (arangeSym ww).foldl
        (fun acc2 wj => acc2 + Complex.abs (pyGetD m (dci + wj) (rci + wi)) ^ 2)
        acc)
    0

/-- The `cell_counter += 1` accumulation of the same loop. -/
def cellCount (wl ww : ℕ) : ℕ :=
  (arangeSym wl).foldl
    (fun c _ => (arangeSym ww).foldl (fun c2 _ => c2 + 1) c) 0

/-- `noise_floor /= cell_counter`. -/
noncomputable def noiseFloor (m : Mat) (dci rci : ℤ) (wl ww : ℕ) : ℝ :=
  noiseFloorSum m dci rci wl ww / (cellCount wl ww : ℝ)

/-- `dyn_range = -10*np.log10(noise_floor)`. -/
noncomputable def estDynRange (m : Mat) (dci rci : ℤ) (wl ww : ℕ) : ℝ :=
  -10 * Real.logb 10 (noiseFloor m dci rci wl ww)

/-- The `if dyn_range is None:` branch shared by `export_rd_matrix_img` and
`plot_rd_matrix`: scale the matrix in place, estimate the noise floor over the
reference window, derive the dynamic range.  Returns the post-branch state of
the caller's array together with the effective dynamic range (`none` models the
`IndexError` raised when the window reaches outside the matrix; the scaling has
already happened at that point). -/
noncomputable def resolveDynRange (m : Mat) (dci rci : ℤ) (wl ww : ℕ) :
    Option ℝ → Mat × Option ℝ
  | some d => (m, some d)
  | none =>
    let m2 := scaleByMax m
    if windowOk m2 dci rci wl ww then
      (m2, some (estDynRange m2 dci rci wl ww))
    else (m2, none)

/-- `rd_matrix = 10 * np.log10(np.abs(rd_matrix) ** 2)` (a fresh array). -/
noncomputable def dbMat (m : Mat) : RMat :=
  m.map fun r => r.map fun x => 10 * Real.logb 10 (Complex.abs x ^ 2)

/-- `rd_matrix -= np.max(rd_matrix)`: shift so the global peak sits at 0 dB. -/
noncomputable def subMax (p : RMat) : RMat :=
  p.map fun r => r.map fun v => v - npMax p.flatten

/-- The clamping double loop: every value below `-dyn_range` is replaced by
`-dyn_range`. -/
noncomputable def clampFloor (d : ℝ) (p : RMat) : RMat :=
  p.map fun r => r.map fun v => if v < -d then -d else v

/-- The dynamic-range compression applied after the dynamic range has been
fixed: dB conversion, peak subtraction, floor clamp. -/
noncomputable def normalizeWith (d : ℝ) (m : Mat) : RMat := clampFloor d (subMax (dbMat m))

/-- `export_rd_matrix_img`, numeric core, with the post-call state of the
caller's array as first component.  Reference cell `(30, 20)`, window `5 × 5`. -/
noncomputable def export_rd_full (m : Mat) (dyn_range : Option ℝ) : Mat × Option (RMat × ℝ) :=
  match resolveDynRange m 30 20 5 5 dyn_range with
  | (mA, none) => (mA, none)
  | (mA, some d) => (mA, some (normalizeWith d mA, d))

/-- The matrix handed to the plotting library by `export_rd_matrix_img`
together with the effective dynamic range (`none` models the `IndexError`
escaping the call). -/
noncomputable def export_rd_matrix_img (m : Mat) (dyn_range : Option ℝ) : Option (RMat × ℝ) :=
  (export_rd_full m dyn_range).2

/-- `plot_rd_matrix`, numeric core; identical to `export_rd_full` except for
the reference cell `(10, 20)`. -/
noncomputable def plot_rd_full (m : Mat) (dyn_range : Option ℝ) : Mat × Option (RMat × ℝ) :=
  match resolveDynRange m 10 20 5 5 dyn_range with
  | (mA, none) => (mA, none)
  | (mA, some d) => (mA, some (normalizeWith d mA, d))

/-- The matrix handed to the heatmap trace by `plot_rd_matrix` together with
the effective dynamic range. -/
noncomputable def plot_rd_matrix (m : Mat) (dyn_range : Option ℝ) : Option (RMat × ℝ) :=
  (plot_rd_full m dyn_range).2

/-- `np.size(rd_matrix, 0)`: number of Doppler rows. -/
def nrowsOf (m : Mat) : ℕ := m.length

/-- `np.size(rd_matrix, 1)`: number of range columns. -/
def ncolsOf (m : Mat) : ℕ := (m.headD []).length

/-- Inner loop of `np.argmin`: scan the remaining list, keeping the index of
the first strictly smallest value seen so far. -/
def argminFrom : List ℚ → ℕ → ℕ → ℚ → ℕ
  | [], _, bi, _ => bi
  | x :: xs, i, bi, bv =>
    if x < bv then argminFrom xs (i + 1) i x else argminFrom xs (i + 1) bi bv

/-- `np.argmin`: index of the first occurrence of the minimum (0 on the empty
list, on which `np.argmin` raises). -/
def argminList : List ℚ → ℕ
  | [] => 0
  | x :: xs => argminFrom xs 1 0 x

/-- `np.linspace(a, b, n)` (endpoint included). -/
def linspace (a b : ℚ) (n : ℕ) : List ℚ :=
  (List.range n).map fun i : ℕ => a + (b - a) * (i : ℚ) / ((n : ℚ) - 1)

/-- The bin-selection and validation logic of `plot_Doppler_slice`: reject a
negative `bistat_range`; when `fs` is given, reject a distance beyond the last
bin and convert the distance to the closest-match bin via `np.argmin`; finally
reject a bin index beyond the last column. -/
def dopplerSliceBin (ncols : ℕ) (fs : Option ℚ) (br : ℚ) : Option ℚ :=
  if br < 0 then none
  else
    match fs with
    | some f =>
      let d : ℚ := 3 * 10 ^ 8 / f
      if br > ((ncols : ℚ) - 1) * d then none
      else
        let b : ℚ :=
          ((argminList ((List.range ncols).map fun i : ℕ => |(i : ℚ) * d - br|) : ℕ) : ℚ)
        if b > (ncols : ℚ) - 1 then none else some b
    | none => if br > (ncols : ℚ) - 1 then none else some br

/-- `rd_matrix[:, j]`: a column of a real matrix (`none` when a row is too
short, which cannot happen on a rectangular matrix after validation). -/
def column? (p : RMat) (j : ℕ) : Option (List ℝ) := p.mapM fun r => r.get? j

/-- The data plotted by `plot_Doppler_slice`, as a coarse projection: `none`
whenever the call produces no data, whether through a printed-error-and-`None`
exit or through the `ValueError` that the trace-name format `{:d}` raises for
a float-typed in-range bin index.  `dopplerSliceCall` below separates the two
outcomes. -/
noncomputable def dopplerSliceResult (m : Mat) (fs : Option ℚ) (br : ℚ) : Option (List ℝ) :=
  match dopplerSliceBin (ncolsOf m) fs br with
  | none => none
  | some v => if v.den = 1 then column? (dbMat m) v.num.toNat else none

/-- `plot_Doppler_slice` with the post-call state of the caller's array: line
329 rebinds `rd_matrix` to a fresh dB array, so the caller's array is returned
unchanged. -/
noncomputable def plot_Doppler_slice_full (m : Mat) (fs : Option ℚ) (br : ℚ) :
    Mat × Option (List ℝ) :=
  (m, dopplerSliceResult m fs br)

/-- The bin-selection and validation logic of `plot_range_slice`: when
`max_Doppler` is given, reject a frequency beyond it in magnitude and convert
the frequency to the closest bin of `np.linspace(-max_Doppler, max_Doppler, n)`
via `np.argmin`; then reject a bin index beyond the last row or negative. -/
def rangeSliceBin (nrows : ℕ) (max_Doppler : Option ℚ) (df : ℚ) : Option ℚ :=
  match max_Doppler with
  | some md =>
    if |df| > md then none
    else
      let scale := linspace (-md) md nrows
      let b : ℚ := ((argminList (scale.map fun x => |x - df|) : ℕ) : ℚ)
      if b > (nrows : ℚ) - 1 then none
      else if b < 0 then none
      else some b
  | none =>
    if df > (nrows : ℚ) - 1 then none
    else if df < 0 then none
    else some df

/-- The data plotted by `plot_range_slice`, as a coarse projection: `none`
whenever the call produces no data.  This does not distinguish the graceful
printed-error-and-`None` exits from the `ValueError` that the error messages'
format `{:d}` raises for a float-typed `Doppler_freq`; `rangeSliceCall` below
separates the two outcomes, and `rangeSliceCall_int` shows that for an
`int`-typed bin request this projection is exact. -/
noncomputable def rangeSliceResult (m : Mat) (max_Doppler : Option ℚ) (df : ℚ) :
    Option (List ℝ) :=
  match rangeSliceBin (nrowsOf m) max_Doppler df with
  | none => none
  | some v => if v.den = 1 then (dbMat m).get? v.num.toNat else none

/-- `plot_range_slice` with the post-call state of the caller's array: line
420 rebinds `rd_matrix` to a fresh dB array, so the caller's array is returned
unchanged. -/
noncomputable def plot_range_slice_full (m : Mat) (max_Doppler : Option ℚ) (df : ℚ) :
    Mat × Option (List ℝ) :=
  (m, rangeSliceResult m max_Doppler df)

/-- A Python numeric argument: an `int` or a `float` (floats modelled as
exact rationals).  The distinction matters because the format specifier
`{:d}` used in some of the module's messages accepts an `int` but raises
`ValueError` for a `float`. -/
inductive PyNum : Type
  | int : ℤ → PyNum
  | float : ℚ → PyNum

/-- The numeric value of a Python argument. -/
def PyNum.val : PyNum → ℚ
  | PyNum.int n => (n : ℚ)
  | PyNum.float q => q

/-- Outcome of a slice-plotting call: `done none` is a graceful
printed-error-and-`None` exit, `done (some data)` a returned figure holding
`data`, and `raised` a Python exception escaping the call. -/
inductive PyOutcome (α : Type) : Type
  | done : Option α → PyOutcome α
  | raised : PyOutcome α

/-- `plot_Doppler_slice` with the Python type of `bistat_range` tracked.
Every validation-error exit (lines 337, 343, 349) prints with the float
format `{:.1f}` and returns `None`, for an `int` or a `float` alike; the one
raise is on the success path without `fs`, where the trace name at line 355
formats the still-float bin index with `{:d}` (with `fs` the bin has been
replaced by the integer `np.argmin` result, so it formats cleanly). -/
noncomputable def dopplerSliceCall (m : Mat) (fs : Option ℚ) (br : PyNum) :
    PyOutcome (List ℝ) :=
  if br.val < 0 then PyOutcome.done none
  else
    match fs with
    | some f =>
      let d : ℚ := 3 * 10 ^ 8 / f
      if br.val > ((ncolsOf m : ℚ) - 1) * d then PyOutcome.done none
      else
        let b : ℕ :=
          argminList ((List.range (ncolsOf m)).map fun i : ℕ => |(i : ℚ) * d - br.val|)
        if (b : ℚ) > (ncolsOf m : ℚ) - 1 then PyOutcome.done none
        else PyOutcome.done (column? (dbMat m) b)
    | none =>
      if br.val > (ncolsOf m : ℚ) - 1 then PyOutcome.done none
      else
        match br with
        | PyNum.int n => PyOutcome.done (column? (dbMat m) n.toNat)
        | PyNum.float _ => PyOutcome.raised

/-- `plot_range_slice` with the Python type of `Doppler_freq` tracked.  With
`max_Doppler` the pre-check at line 428 prints with `{:.1f}` and the
converted bin is the integer `np.argmin` result, so every exit is graceful.
Without it, the two out-of-range error messages (lines 436, 440) format the
bin with `{:d}`: they print and return `None` for an `int` but raise
`ValueError` for a `float` — and the success-path trace name at line 444
does the same. -/
noncomputable def rangeSliceCall (m : Mat) (max_Doppler : Option ℚ) (df : PyNum) :
    PyOutcome (List ℝ) :=
  match max_Doppler with
  | some md =>
    if |df.val| > md then PyOutcome.done none
    else
      let b : ℕ := argminList ((linspace (-md) md (nrowsOf m)).map fun x => |x - df.val|)
      if (b : ℚ) > (nrowsOf m : ℚ) - 1 then PyOutcome.done none
      else if (b : ℚ) < 0 then PyOutcome.done none
      else PyOutcome.done ((dbMat m).get? b)
  | none =>
    if df.val > (nrowsOf m : ℚ) - 1 then
      match df with
      | PyNum.int _ => PyOutcome.done none
      | PyNum.float _ => PyOutcome.raised
    else if df.val < 0 then
      match df with
      | PyNum.int _ => PyOutcome.done none
      | PyNum.float _ => PyOutcome.raised
    else
      match df with
      | PyNum.int n => PyOutcome.done ((dbMat m).get? n.toNat)
      | PyNum.float _ => PyOutcome.raised

/-- Reapplication of the dynamic-range compression to an already-normalized
(real-valued) matrix, as in the idempotence property: for a real sample `v`,
`np.abs(v) ** 2 = |v| ^ 2`. -/
noncomputable def normalizeAgain (d : ℝ) (p : RMat) : RMat :=
  clampFloor d (subMax (p.map fun r => r.map fun v => 10 * Real.logb 10 (|v| ^ 2)))

/-! ### Helper lemmas about `npMax` and flattening -/

lemma foldl_max_le_self (xs : List ℝ) (a : ℝ) : a ≤ xs.foldl max a := by
  induction xs generalizing a with
  | nil => exact le_refl a
  | cons x xs ih => exact le_trans (le_max_left a x) (ih (max a x))

lemma le_foldl_max {xs : List ℝ} {x : ℝ} (hx : x ∈ xs) (a : ℝ) :
    x ≤ xs.foldl max a := by
  induction xs generalizing a with
  | nil => cases hx
  | cons y ys ih =>
    rcases List.mem_cons.1 hx with rfl | h
    · exact le_trans (le_max_right a x) (foldl_max_le_self ys (max a x))
    · exact ih h (max a y)

lemma foldl_max_mem (xs : List ℝ) (a : ℝ) :
    xs.foldl max a = a ∨ xs.foldl max a ∈ xs := by
  induction xs generalizing a with
  | nil => exact Or.inl rfl
  | cons x xs ih =>
    simp only [List.foldl_cons]
    rcases ih (max a x) with h | h
    · rcases le_total x a with hxa | hax
      · rw [h, max_eq_left hxa]; exact Or.inl rfl
      · rw [h, max_eq_right hax]; exact Or.inr (List.mem_cons_self x xs)
    · exact Or.inr (List.mem_cons_of_mem x h)

lemma npMax_mem {l : List ℝ} (h : l ≠ []) : npMax l ∈ l := by
  cases l with
  | nil => exact absurd rfl h
  | cons x xs =>
    rcases foldl_max_mem xs x with h' | h'
    · rw [npMax, h']; exact List.mem_cons_self x xs
    · rw [npMax]; exact List.mem_cons_of_mem x h'

lemma le_npMax {l : List ℝ} {x : ℝ} (hx : x ∈ l) : x ≤ npMax l := by
  cases l with
  | nil => cases hx
  | cons y ys =>
    rw [npMax]
    rcases List.mem_cons.1 hx with rfl | h
    · exact foldl_max_le_self ys x
    · exact le_foldl_max h y

lemma npMax_eq_of {l : List ℝ} {a : ℝ} (ha : a ∈ l) (hle : ∀ x ∈ l, x ≤ a) :
    npMax l = a :=
  le_antisymm (hle _ (npMax_mem (List.ne_nil_of_mem ha))) (le_npMax ha)

lemma flatten_map_map {α β : Type} (f : α → β) (m : List (List α)) :
    (m.map fun r => r.map f).flatten = m.flatten.map f :=
  (List.map_flatten f m).symm

/-! ### The normalized matrix: floor clamped, peak at zero -/

lemma flatten_normalizeWith (d : ℝ) (m : Mat) :
    (normalizeWith d m).flatten =
      (m.flatten.map fun x => 10 * Real.logb 10 (Complex.abs x ^ 2)).map
        (fun v => if v - npMax (dbMat m).flatten < -d then -d
                  else v - npMax (dbMat m).flatten) := by
  rw [normalizeWith, clampFloor, subMax, flatten_map_map, flatten_map_map,
    List.map_map, dbMat, flatten_map_map]
  rfl

lemma mem_normalizeWith {d : ℝ} {m : Mat} {x : ℝ}
    (hx : x ∈ (normalizeWith d m).flatten) : -d ≤ x := by
  rw [flatten_normalizeWith] at hx
  rcases List.mem_map.1 hx with ⟨v, _, rfl⟩
  split
  · exact le_refl _
  · next h => exact le_of_not_lt h

lemma length_flatten_normalizeWith (d : ℝ) (m : Mat) :
    (normalizeWith d m).flatten.length = m.flatten.length := by
  rw [flatten_normalizeWith, List.length_map, List.length_map]

lemma npMax_normalizeWith {d : ℝ} {m : Mat} (hm : m.flatten ≠ [])
    (hd : 0 ≤ d) : npMax (normalizeWith d m).flatten = 0 := by
  rw [flatten_normalizeWith]
  set L := m.flatten.map fun x => 10 * Real.logb 10 (Complex.abs x ^ 2) with hLdef
  have hLdb : (dbMat m).flatten = L := by rw [dbMat, flatten_map_map]
  rw [hLdb]
  set M := npMax L with hM
  have hLne : L ≠ [] := by
    intro h
    exact hm (List.map_eq_nil_iff.1 (hLdef ▸ h))
  have hd' : ¬ ((0 : ℝ) < -d) := not_lt.2 (neg_nonpos.2 hd)
  refine npMax_eq_of ?_ ?_
  · refine List.mem_map.2 ⟨M, npMax_mem hLne, ?_⟩
    rw [sub_self, if_neg hd']
  · intro x hx
    rcases List.mem_map.1 hx with ⟨v, hv, rfl⟩
    split
    · exact neg_nonpos.2 hd
    · exact sub_nonpos.2 (le_npMax hv)

/-- Inversion for the matrix handed out by `export_rd_matrix_img`: it is
always produced by `normalizeWith` from a matrix of the original shape. -/
lemma export_inv {m : Mat} {dr : Option ℝ} {res : RMat} {d : ℝ}
    (h : export_rd_matrix_img m dr = some (res, d)) :
    ∃ mm : Mat, res = normalizeWith d mm ∧
      mm.flatten.length = m.flatten.length := by
  cases dr with
  | some d0 =>
    simp only [export_rd_matrix_img, export_rd_full, resolveDynRange,
      Option.some.injEq, Prod.mk.injEq] at h
    exact ⟨m, by rw [← h.1, h.2], rfl⟩
  | none =>
    simp only [export_rd_matrix_img, export_rd_full, resolveDynRange] at h
    cases hw : windowOk (scaleByMax m) 30 20 5 5 with
    | false => rw [if_neg (by simp [hw])] at h; cases h
    | true =>
      rw [if_pos (by simp [hw])] at h
      simp only [Option.some.injEq, Prod.mk.injEq] at h
      refine ⟨scaleByMax m, by rw [← h.1, h.2], ?_⟩
      rw [scaleByMax, flatten_map_map, List.length_map]

/-- Inversion for the matrix handed out by `plot_rd_matrix`. -/
lemma plot_inv {m : Mat} {dr : Option ℝ} {res : RMat} {d : ℝ}
    (h : plot_rd_matrix m dr = some (res, d)) :
    ∃ mm : Mat, res = normalizeWith d mm ∧
      mm.flatten.length = m.flatten.length := by
  cases dr with
  | some d0 =>
    simp only [plot_rd_matrix, plot_rd_full, resolveDynRange,
      Option.some.injEq, Prod.mk.injEq] at h
    exact ⟨m, by rw [← h.1, h.2], rfl⟩
  | none =>
    simp only [plot_rd_matrix, plot_rd_full, resolveDynRange] at h
    cases hw : windowOk (scaleByMax m) 10 20 5 5 with
    | false => rw [if_neg (by simp [hw])] at h; cases h
    | true =>
      rw [if_pos (by simp [hw])] at h
      simp only [Option.some.injEq, Prod.mk.injEq] at h
      refine ⟨scaleByMax m, by rw [← h.1, h.2], ?_⟩
      rw [scaleByMax, flatten_map_map, List.length_map]

/-- C1: for every matrix, after the dynamic-range normalization (dB
conversion, peak subtraction, floor clamp) performed by `export_rd_matrix_img`
or `plot_rd_matrix`, the maximum value of the resulting matrix equals 0 dB
exactly (the matrix being nonempty and the effective dynamic range
nonnegative, as a dynamic range is). -/
theorem normalized_peak_at_zero (m : Mat) (dr : Option ℝ) (res : RMat) (d : ℝ)
    (hm : m.flatten ≠ []) (hd : 0 ≤ d) :
    (export_rd_matrix_img m dr = some (res, d) → npMax res.flatten = 0) ∧
    (plot_rd_matrix m dr = some (res, d) → npMax res.flatten = 0) := by
  constructor
  · intro h
    rcases export_inv h with ⟨mm, rfl, hlen⟩
    have hmm : mm.flatten ≠ [] := by
      intro h0
      rw [h0] at hlen
      exact hm (List.eq_nil_of_length_eq_zero hlen.symm)
    exact npMax_normalizeWith hmm hd
  · intro h
    rcases plot_inv h with ⟨mm, rfl, hlen⟩
    have hmm : mm.flatten ≠ [] := by
      intro h0
      rw [h0] at hlen
      exact hm (List.eq_nil_of_length_eq_zero hlen.symm)
    exact npMax_normalizeWith hmm hd

/-- C1 witness: a concrete instance, `rd_matrix = [[1]]`, `dyn_range = 30`. -/
theorem normalized_peak_at_zero_witness :
    npMax ((normalizeWith (30 : ℝ) [[1]]).flatten) = 0 :=
  (normalized_peak_at_zero [[1]] (some 30) (normalizeWith 30 [[1]]) 30
    (by simp) (by norm_num)).1 rfl

/-- C2: for every matrix and every effective dynamic range (supplied or
estimated), after normalization in `export_rd_matrix_img` or `plot_rd_matrix`
every cell of the resulting matrix is at least `-dyn_range`, and no cell is
removed (the flattened size is unchanged). -/
theorem normalized_floor_invariant (m : Mat) (dr : Option ℝ) (res : RMat)
    (d x : ℝ)
    (h : export_rd_matrix_img m dr = some (res, d) ∨
         plot_rd_matrix m dr = some (res, d))
    (hx : x ∈ res.flatten) :
    -d ≤ x ∧ res.flatten.length = m.flatten.length := by
  rcases h with h | h
  · rcases export_inv h with ⟨mm, rfl, hlen⟩
    exact ⟨mem_normalizeWith hx, by rw [length_flatten_normalizeWith, hlen]⟩
  · rcases plot_inv h with ⟨mm, rfl, hlen⟩
    exact ⟨mem_normalizeWith hx, by rw [length_flatten_normalizeWith, hlen]⟩

/-- C2 witness: the cell of `normalizeWith 30 [[1]]` is `0 ≥ -30`. -/
theorem normalized_floor_invariant_witness : -(30 : ℝ) ≤ 0 :=
  (normalized_floor_invariant [[1]] (some 30) (normalizeWith 30 [[1]]) 30 0
    (Or.inl rfl)
    (by norm_num [normalizeWith, clampFloor, subMax, dbMat, npMax])).1

/-! ### Mutation of the caller's matrix -/

/-- C10: if `dyn_range` is supplied explicitly, none of the four functions
modifies the caller's matrix; the in-place division happens only in the
automatic-estimation branch, and the later steps rebind a fresh array. -/
theorem explicit_dyn_range_no_mutation (m : Mat) (d : ℝ) (fs md : Option ℚ)
    (br df : ℚ) :
    (export_rd_full m (some d)).1 = m ∧
    (plot_rd_full m (some d)).1 = m ∧
    (plot_Doppler_slice_full m fs br).1 = m ∧
    (plot_range_slice_full m md df).1 = m :=
  ⟨rfl, rfl, rfl, rfl⟩

/-- C9 counterexample: `export_rd_matrix_img` called with an explicit
`dyn_range` leaves the caller's matrix exactly as it was — the claim that
every rendering call destroys the caller's values is false. -/
theorem in_place_mutation_counterexample :
    (export_rd_full [[2]] (some 30)).1 = [[2]] := rfl

/-- C9 amended: only the automatic dynamic-range-estimation branch mutates
the caller's matrix (in-place division by the global maximum magnitude); with
an explicit `dyn_range`, and in both slice functions, the caller's matrix is
left unchanged, all remaining steps operating on a fresh array. -/
theorem mutation_only_in_estimation_branch (m : Mat) (d : ℝ) (fs md : Option ℚ)
    (br df : ℚ) :
    (export_rd_full m none).1 = scaleByMax m ∧
    (plot_rd_full m none).1 = scaleByMax m ∧
    (export_rd_full m (some d)).1 = m ∧
    (plot_Doppler_slice_full m fs br).1 = m ∧
    (plot_range_slice_full m md df).1 = m := by
  refine ⟨?_, ?_, rfl, rfl, rfl⟩
  · cases hw : windowOk (scaleByMax m) 30 20 5 5 <;>
      simp [export_rd_full, resolveDynRange, hw]
  · cases hw : windowOk (scaleByMax m) 10 20 5 5 <;>
      simp [plot_rd_full, resolveDynRange, hw]

/-! ### Idempotence of the transform -/

lemma logb_ten_hundred : Real.logb 10 100 = 2 := by
  rw [show (100 : ℝ) = 10 ^ (2 : ℕ) by norm_num, Real.logb_pow,
    Real.logb_self_eq_one (by norm_num)]
  norm_num

lemma complex_abs_ten : Complex.abs 10 = 10 := by
  rw [show (10 : ℂ) = ((10 : ℝ) : ℂ) by norm_num, Complex.abs_ofReal]
  norm_num

lemma npMax_pair_right {a : ℝ} (h : a ≤ 20) : npMax [a, 20] = 20 := by
  rw [npMax, List.foldl_cons, List.foldl_nil, max_eq_right h]

lemma normalizeWith_two_cells : normalizeWith 5 [[1, 10]] = [[-5, 0]] := by
  have h1 : Complex.abs 1 = 1 := map_one Complex.abs
  have hdb : dbMat [[1, 10]] = [[0, 20]] := by
    simp only [dbMat, List.map_cons, List.map_nil, h1, complex_abs_ten,
      one_pow, Real.logb_one, mul_zero]
    norm_num [logb_ten_hundred]
  have hsub : subMax [[0, 20]] = [[-20, 0]] := by
    rw [subMax]
    simp only [List.flatten_cons, List.flatten_nil, List.append_nil,
      npMax_pair_right (by norm_num : (0:ℝ) ≤ 20), List.map_cons, List.map_nil]
    norm_num
  rw [normalizeWith, hdb, hsub, clampFloor]
  simp only [List.map_cons, List.map_nil]
  rw [if_pos (by norm_num : (-20 : ℝ) < -5),
    if_neg (by norm_num : ¬ ((0 : ℝ) < -5))]

/-- C4 counterexample: with `dyn_range = 5` fixed, re-running the full
transform (dB conversion, peak subtraction, floor clamp) on the output of a
first run changes the matrix: the dB conversion is applied to values that are
already decibels. -/
theorem normalize_not_idempotent :
    normalizeAgain 5 (normalizeWith 5 [[1, 10]]) ≠ normalizeWith 5 [[1, 10]] := by
  rw [normalizeWith_two_cells]
  intro h
  have hpos : 0 < Real.logb 10 25 := Real.logb_pos (by norm_num) (by norm_num)
  have hdb2 : ([[-5, 0]] : RMat).map
      (fun r => r.map fun v => 10 * Real.logb 10 (|v| ^ 2)) =
      [[10 * Real.logb 10 25, 0]] := by
    simp only [List.map_cons, List.map_nil, abs_zero]
    rw [abs_neg, abs_of_nonneg (by norm_num : (0:ℝ) ≤ 5)]
    norm_num [Real.logb_zero]
  have hnp2 : npMax [10 * Real.logb 10 25, (0 : ℝ)] = 10 * Real.logb 10 25 := by
    rw [npMax, List.foldl_cons, List.foldl_nil,
      max_eq_left (by linarith : (0:ℝ) ≤ 10 * Real.logb 10 25)]
  have hsub2 : subMax [[10 * Real.logb 10 25, 0]] =
      [[0, -(10 * Real.logb 10 25)]] := by
    rw [subMax]
    simp only [List.flatten_cons, List.flatten_nil, List.append_nil, hnp2,
      List.map_cons, List.map_nil, sub_self, zero_sub]
  rw [normalizeAgain, hdb2, hsub2, clampFloor] at h
  simp only [List.map_cons, List.map_nil] at h
  rw [if_neg (by norm_num : ¬ ((0 : ℝ) < -5))] at h
  simp only [List.cons.injEq, and_true] at h
  exact absurd h.1 (by norm_num)

/-- C4 amended: re-running the full transform is not idempotent; what is
idempotent is the floor clamp: reapplying the clamp with the same `dyn_range`
to an already-clamped matrix is a no-op. -/
theorem clampFloor_idempotent (d : ℝ) (p : RMat) :
    clampFloor d (clampFloor d p) = clampFloor d p := by
  simp only [clampFloor, List.map_map]
  congr 1
  funext r
  simp only [Function.comp_apply, List.map_map]
  congr 1
  funext v
  by_cases h : v < -d
  · simp only [Function.comp_apply, if_pos h, if_neg (lt_irrefl (-d))]
  · simp only [Function.comp_apply, if_neg h]

/-! ### Failure of the automatic estimation on small matrices -/

/-- C8 counterexample: on a 10 × 10 matrix the estimation window of
`export_rd_matrix_img` (centered at row 30, column 20) reaches outside the
matrix; the access raises `IndexError` (modelled `none`) — the call aborts
with an exception instead of producing `inf`/`nan` values that propagate. -/
theorem estimation_out_of_bounds_counterexample :
    export_rd_matrix_img (List.replicate 10 (List.replicate 10 1)) none =
      none := rfl

/-- C8 amended: when `dyn_range` is not supplied and the noise-floor
reference window does not lie inside the matrix (numpy index resolution
fails), the dynamic-range estimation of `export_rd_matrix_img` raises an
`IndexError` and the call produces no image data at all. -/
theorem estimation_out_of_bounds (m : Mat)
    (hw : windowOk (scaleByMax m) 30 20 5 5 = false) :
    export_rd_matrix_img m none = none := by
  simp [export_rd_matrix_img, export_rd_full, resolveDynRange, hw]

/-- C8 witness: the 10 × 10 all-ones matrix. -/
theorem estimation_out_of_bounds_witness :
    windowOk (scaleByMax (List.replicate 10 (List.replicate 10 1))) 30 20 5 5
      = false ∧
    export_rd_matrix_img (List.replicate 10 (List.replicate 10 1)) none =
      none :=
  ⟨rfl, estimation_out_of_bounds _ rfl⟩

/-! ### What the four wrappers hand to the plotting library -/

/-- C5 counterexample: on `rd_matrix = [[10]]`, `plot_Doppler_slice` plots
the raw dB value `20`, while the 2D renderers' normalizer yields `0` (peak
shifted to 0 dB): the slice plotters do not invoke the normalizer. -/
theorem slice_not_normalized_counterexample :
    dopplerSliceResult [[10]] none 0 ≠ column? (normalizeWith 30 [[10]]) 0 := by
  have hdb : dbMat [[10]] = [[20]] := by
    simp only [dbMat, List.map_cons, List.map_nil, complex_abs_ten]
    norm_num [logb_ten_hundred]
  have hres : dopplerSliceResult [[10]] none 0 = some [(20 : ℝ)] := by
    have hbin : dopplerSliceBin (ncolsOf [[(10 : ℂ)]]) none 0 = some 0 := by
      rw [show ncolsOf [[(10 : ℂ)]] = 1 from rfl]
      simp only [dopplerSliceBin]
      norm_num
    simp only [dopplerSliceResult, hbin]
    rw [if_pos (by decide : (0 : ℚ).den = 1), hdb]
    rfl
  have hnorm : normalizeWith 30 [[10]] = [[0]] := by
    rw [normalizeWith, hdb]
    have hsub : subMax [[20]] = [[0]] := by
      rw [subMax]
      simp only [List.flatten_cons, List.flatten_nil, List.append_nil,
        List.map_cons, List.map_nil, npMax, List.foldl_nil, sub_self]
    rw [hsub, clampFloor]
    simp only [List.map_cons, List.map_nil]
    rw [if_neg (by norm_num : ¬ ((0 : ℝ) < -30))]
  rw [hres, hnorm]
  intro h
  rw [show column? ([[0]] : RMat) 0 = some [(0 : ℝ)] from rfl] at h
  simp only [Option.some.injEq, List.cons.injEq, and_true] at h
  exact absurd h (by norm_num)

/-- C5 amended: the two 2D renderers do invoke the dynamic-range normalizer
on the matrix before plotting, but `plot_Doppler_slice` and
`plot_range_slice` apply only the dB conversion `10·log10(|x|²)`: the data
they plot is the selected column/row of the dB-converted matrix, with no peak
subtraction and no floor clamp. -/
theorem wrappers_normalization (m : Mat) (d : ℝ) (j k : ℕ)
    (hj : (j : ℚ) ≤ (ncolsOf m : ℚ) - 1) (hk : (k : ℚ) ≤ (nrowsOf m : ℚ) - 1) :
    export_rd_matrix_img m (some d) = some (normalizeWith d m, d) ∧
    plot_rd_matrix m (some d) = some (normalizeWith d m, d) ∧
    dopplerSliceResult m none (j : ℚ) = column? (dbMat m) j ∧
    rangeSliceResult m none (k : ℚ) = (dbMat m).get? k := by
  refine ⟨rfl, rfl, ?_, ?_⟩
  · have hbin : dopplerSliceBin (ncolsOf m) none (j : ℚ) = some (j : ℚ) := by
      simp only [dopplerSliceBin]
      rw [if_neg (not_lt.2 (by positivity : (0 : ℚ) ≤ (j : ℚ))),
        if_neg (not_lt.2 hj)]
    simp only [dopplerSliceResult, hbin]
    rw [if_pos (by simp : ((j : ℚ)).den = 1)]
    simp
  · have hbin : rangeSliceBin (nrowsOf m) none (k : ℚ) = some (k : ℚ) := by
      simp only [rangeSliceBin]
      rw [if_neg (not_lt.2 hk),
        if_neg (not_lt.2 (by positivity : (0 : ℚ) ≤ (k : ℚ)))]
    simp only [rangeSliceResult, hbin]
    rw [if_pos (by simp : ((k : ℚ)).den = 1)]
    simp

/-- C5 amended witness: `rd_matrix = [[1]]`, slice at bin 0. -/
theorem wrappers_normalization_witness :
    dopplerSliceResult [[1]] none ((0 : ℕ) : ℚ) = column? (dbMat [[1]]) 0 :=
  (wrappers_normalization [[1]] 30 0 0
    (by rw [show ncolsOf [[(1 : ℂ)]] = 1 from rfl]; norm_num)
    (by rw [show nrowsOf [[(1 : ℂ)]] = 1 from rfl]; norm_num)).2.2.1

/-! ### Invalid slice requests: graceful exits versus raises -/

/-- For an `int`-typed bin request without `max_Doppler`, `plot_range_slice`
never raises, and the coarse `rangeSliceResult` projection is exact: the call
returns normally with exactly that data. -/
lemma rangeSliceCall_int (m : Mat) (n : ℤ) :
    rangeSliceCall m none (PyNum.int n) =
      PyOutcome.done (rangeSliceResult m none (n : ℚ)) := by
  by_cases h1 : (n : ℚ) > (nrowsOf m : ℚ) - 1
  · have hbin : rangeSliceBin (nrowsOf m) none (n : ℚ) = none := by
      simp only [rangeSliceBin]
      rw [if_pos h1]
    simp only [rangeSliceResult, hbin, rangeSliceCall, PyNum.val]
    rw [if_pos h1]
  · by_cases h2 : (n : ℚ) < 0
    · have hbin : rangeSliceBin (nrowsOf m) none (n : ℚ) = none := by
        simp only [rangeSliceBin]
        rw [if_neg h1, if_pos h2]
      simp only [rangeSliceResult, hbin, rangeSliceCall, PyNum.val]
      rw [if_neg h1, if_pos h2]
    · have hbin : rangeSliceBin (nrowsOf m) none (n : ℚ) = some (n : ℚ) := by
        simp only [rangeSliceBin]
        rw [if_neg h1, if_neg h2]
      simp only [rangeSliceResult, hbin, rangeSliceCall, PyNum.val]
      rw [if_neg h1, if_neg h2, if_pos (by simp : ((n : ℚ)).den = 1)]
      simp

/-- C6 counterexample: requesting the out-of-range Doppler bin 70.5 — a
Python `float`, the documented type of `Doppler_freq` — of a 64-row matrix
in `plot_range_slice` raises `ValueError` from the `{:d}` format specifier
inside the error message at line 436: nothing is printed and `None` is never
returned, refuting the claim that every invalid slice request prints an
error and returns `None` with no exception. -/
theorem invalid_float_bin_raises_counterexample :
    rangeSliceCall (List.replicate 64 (List.replicate 64 1)) none
      (PyNum.float (141 / 2)) = PyOutcome.raised := by
  have h : ((141 : ℚ) / 2) >
      (nrowsOf (List.replicate 64 (List.replicate 64 (1 : ℂ))) : ℚ) - 1 := by
    rw [show nrowsOf (List.replicate 64 (List.replicate 64 (1 : ℂ)))
      = 64 from rfl]
    norm_num
  simp only [rangeSliceCall, PyNum.val]
  rw [if_pos h]

/-- C6 amended: for `int`-typed bin requests and for physical-value
requests, an invalid or out-of-range value makes the slice functions print
an error message and return `None`, with no exception — an out-of-range
`int` Doppler bin in `plot_range_slice` (the spec's example: bin 70 of a
64-row matrix), a Doppler frequency beyond `max_Doppler`, a negative
bistatic range, and a beyond-the-last-column bistatic range in
`plot_Doppler_slice` all exit gracefully; but an out-of-range float-typed
Doppler bin in `plot_range_slice` instead raises `ValueError` from the
`{:d}` format of the error message itself. -/
theorem invalid_slice_prints_and_returns_none (m : Mat) (n : ℤ)
    (md df br brh : ℚ)
    (h1 : (nrowsOf m : ℚ) - 1 < (n : ℚ) ∨ (n : ℚ) < 0)
    (h2 : md < |df|)
    (h3 : br < 0)
    (h4 : 0 ≤ brh) (h5 : (ncolsOf m : ℚ) - 1 < brh) :
    rangeSliceCall m none (PyNum.int n) = PyOutcome.done none ∧
    rangeSliceCall m (some md) (PyNum.float df) = PyOutcome.done none ∧
    dopplerSliceCall m none (PyNum.float br) = PyOutcome.done none ∧
    dopplerSliceCall m none (PyNum.float brh) = PyOutcome.done none := by
  refine ⟨?_, ?_, ?_, ?_⟩
  · simp only [rangeSliceCall, PyNum.val]
    rcases h1 with h | h
    · rw [if_pos h]
    · by_cases h' : (nrowsOf m : ℚ) - 1 < (n : ℚ)
      · rw [if_pos h']
      · rw [if_neg h', if_pos h]
  · simp only [rangeSliceCall, PyNum.val]
    rw [if_pos (by rwa [gt_iff_lt] : |df| > md)]
  · simp only [dopplerSliceCall, PyNum.val]
    rw [if_pos h3]
  · simp only [dopplerSliceCall, PyNum.val]
    rw [if_neg (not_lt.2 h4), if_pos h5]

/-- C6 amended witness: bin 70 (an `int`) on a 64-row matrix prints and
returns `None`; so do a physical value beyond `max_Doppler`, a negative
bistatic range, and a beyond-the-last-column float bistatic range. -/
theorem invalid_slice_prints_and_returns_none_witness :
    rangeSliceCall (List.replicate 64 (List.replicate 64 1)) none
      (PyNum.int 70) = PyOutcome.done none ∧
    rangeSliceCall (List.replicate 64 (List.replicate 64 1)) (some 5)
      (PyNum.float 6) = PyOutcome.done none ∧
    dopplerSliceCall (List.replicate 64 (List.replicate 64 1)) none
      (PyNum.float (-1)) = PyOutcome.done none ∧
    dopplerSliceCall (List.replicate 64 (List.replicate 64 1)) none
      (PyNum.float 70) = PyOutcome.done none :=
  invalid_slice_prints_and_returns_none
    (List.replicate 64 (List.replicate 64 1)) 70 5 6 (-1) 70
    (Or.inl (by rw [show nrowsOf (List.replicate 64 (List.replicate 64 (1 : ℂ)))
      = 64 from rfl]; norm_num))
    (by norm_num)
    (by norm_num)
    (by norm_num)
    (by rw [show ncolsOf (List.replicate 64 (List.replicate 64 (1 : ℂ)))
      = 64 from rfl]; norm_num)

/-! ### The closest-match bin search round-trips with the distance formula -/

lemma argminFrom_ge (xs : List ℚ) : ∀ (i bi : ℕ) (bv : ℚ),
    (∀ x ∈ xs, bv ≤ x) → argminFrom xs i bi bv = bi := by
  induction xs with
  | nil => intro i bi bv _; rfl
  | cons x xs ih =>
    intro i bi bv h
    rw [argminFrom, if_neg (not_lt.2 (h x (List.mem_cons_self x xs)))]
    exact ih (i + 1) bi bv fun y hy => h y (List.mem_cons_of_mem x hy)

lemma argminFrom_mid (v : ℚ) (post : List ℚ) (hpost : ∀ y ∈ post, v ≤ y)
    (pre : List ℚ) : ∀ (i bi : ℕ) (bv : ℚ), (∀ x ∈ pre, v < x) → v < bv →
    argminFrom (pre ++ v :: post) i bi bv = i + pre.length := by
  induction pre with
  | nil =>
    intro i bi bv _ hbv
    rw [List.nil_append, argminFrom, if_pos hbv,
      argminFrom_ge post (i + 1) i v hpost, List.length_nil, Nat.add_zero]
  | cons a pre ih =>
    intro i bi bv hpre hbv
    have hva : v < a := hpre a (List.mem_cons_self a pre)
    have hpre' : ∀ x ∈ pre, v < x := fun x hx =>
      hpre x (List.mem_cons_of_mem a hx)
    rw [List.cons_append, argminFrom]
    by_cases hab : a < bv
    · rw [if_pos hab, ih (i + 1) i a hpre' hva, List.length_cons]
      omega
    · rw [if_neg hab, ih (i + 1) bi bv hpre' hbv, List.length_cons]
      omega

lemma argminList_concat (pre : List ℚ) (v : ℚ) (post : List ℚ)
    (hpre : ∀ x ∈ pre, v < x) (hpost : ∀ y ∈ post, v ≤ y) :
    argminList (pre ++ v :: post) = pre.length := by
  cases pre with
  | nil =>
    rw [List.nil_append, argminList, argminFrom_ge post 1 0 v hpost,
      List.length_nil]
  | cons a pre =>
    have hva : v < a := hpre a (List.mem_cons_self a pre)
    rw [List.cons_append, argminList,
      argminFrom_mid v post hpost pre 1 0 a
        (fun x hx => hpre x (List.mem_cons_of_mem a hx)) hva,
      List.length_cons]
    omega

/-- `np.argmin(|np.arange(n)*d - k*d|)` finds exactly bin `k` when `d > 0`. -/
lemma argmin_exact (n k : ℕ) (d : ℚ) (hd : 0 < d) (hk : k < n) :
    argminList ((List.range n).map fun i : ℕ => |(i : ℚ) * d - (k : ℚ) * d|) = k := by
  obtain ⟨r, rfl⟩ : ∃ r, n = k + (r + 1) := ⟨n - k - 1, by omega⟩
  have hlist : (List.range (k + (r + 1))).map
      (fun i : ℕ => |(i : ℚ) * d - (k : ℚ) * d|) =
      ((List.range k).map fun i : ℕ => |(i : ℚ) * d - (k : ℚ) * d|) ++
        (0 : ℚ) :: ((List.range r).map
          fun j : ℕ => |((k + (j + 1) : ℕ) : ℚ) * d - (k : ℚ) * d|) := by
    simp only [List.range_add, List.map_append, List.range_succ_eq_map,
      List.map_cons, List.map_map]
    refine congrArg (_ ++ ·) ?_
    refine congrArg₂ List.cons (by simp) ?_
    apply List.map_congr_left
    intro j _
    simp [Function.comp, Nat.succ_eq_add_one]
  rw [hlist, argminList_concat]
  · rw [List.length_map, List.length_range]
  · intro x hx
    rcases List.mem_map.1 hx with ⟨i, hi, rfl⟩
    have hik : i < k := List.mem_range.1 hi
    have hne : (i : ℚ) * d - (k : ℚ) * d ≠ 0 := by
      intro heq
      have : (i : ℚ) * d = (k : ℚ) * d := by linarith
      have : (i : ℚ) = (k : ℚ) := mul_right_cancel₀ (ne_of_gt hd) this
      exact absurd (Nat.cast_injective this) (by omega)
    exact abs_pos.2 hne
  · intro y hy
    rcases List.mem_map.1 hy with ⟨j, _, rfl⟩
    exact abs_nonneg _

/-- C7: for a matrix with `n` range columns, a sampling frequency `fs > 0`
and a bin index `k ≤ n - 1`, calling `plot_Doppler_slice` with the physical
distance `k · c / fs` selects the same column index `k` as calling it with
the bin index `k` and no `fs`: the physical-to-bin nearest-match conversion
round-trips with `distance = bin_index · c / fs`. -/
theorem physical_bin_round_trip (n k : ℕ) (f : ℚ) (hf : 0 < f)
    (hk : (k : ℚ) ≤ (n : ℚ) - 1) :
    dopplerSliceBin n (some f) ((k : ℚ) * (3 * 10 ^ 8 / f)) = some (k : ℚ) ∧
    dopplerSliceBin n none (k : ℚ) = some (k : ℚ) := by
  have hd : 0 < (3 * 10 ^ 8 / f : ℚ) := by positivity
  have hkn : k < n := by
    by_contra hc
    push_neg at hc
    have : (n : ℚ) ≤ (k : ℚ) := by exact_mod_cast hc
    linarith
  constructor
  · simp only [dopplerSliceBin]
    rw [if_neg (not_lt.2 (by positivity : (0 : ℚ) ≤ (k : ℚ) * (3 * 10 ^ 8 / f)))]
    rw [if_neg (not_lt.2 (mul_le_mul_of_nonneg_right hk (le_of_lt hd)))]
    rw [argmin_exact n k _ hd hkn, if_neg (not_lt.2 hk)]
  · simp only [dopplerSliceBin]
    rw [if_neg (not_lt.2 (by positivity : (0 : ℚ) ≤ (k : ℚ))),
      if_neg (not_lt.2 hk)]

/-- C7 witness: 4 columns, `fs = c` (one metre per bin), bin 2. -/
theorem physical_bin_round_trip_witness :
    dopplerSliceBin 4 (some (3 * 10 ^ 8))
        (((2 : ℕ) : ℚ) * (3 * 10 ^ 8 / (3 * 10 ^ 8))) = some ((2 : ℕ) : ℚ) ∧
    dopplerSliceBin 4 none ((2 : ℕ) : ℚ) = some ((2 : ℕ) : ℚ) :=
  physical_bin_round_trip 4 2 (3 * 10 ^ 8) (by norm_num)
    (by norm_num)

/-! ### The automatic dynamic-range estimation -/

lemma foldl_add_sum {α : Type} (g : α → ℝ) : ∀ (l : List α) (a : ℝ),
    l.foldl (fun acc x => acc + g x) a = a + (l.map g).sum := by
  intro l
  induction l with
  | nil => intro a; simp
  | cons x xs ih =>
    intro a
    rw [List.foldl_cons, ih, List.map_cons, List.sum_cons]
    ring

lemma foldl_nested_sum (g : ℤ → ℤ → ℝ) (l2 : List ℤ) :
    ∀ (l1 : List ℤ) (a : ℝ),
    l1.foldl (fun acc wi => l2.foldl (fun acc2 wj => acc2 + g wi wj) acc) a =
      a + (l1.map fun wi => ((l2.map (g wi)).sum)).sum := by
  intro l1
  induction l1 with
  | nil => intro a; simp
  | cons x xs ih =>
    intro a
    rw [List.foldl_cons, ih, foldl_add_sum (g x) l2 a, List.map_cons,
      List.sum_cons]
    ring

lemma sum_map_range (f : ℕ → ℝ) : ∀ n : ℕ,
    ((List.range n).map f).sum = ∑ i in Finset.range n, f i := by
  intro n
  induction n with
  | zero => simp
  | succ n ih =>
    rw [List.range_succ, List.map_append, List.sum_append,
      Finset.sum_range_succ, ih]
    simp

lemma sum_arangeSym (g : ℤ → ℝ) (w : ℕ) :
    ((arangeSym w).map g).sum =
      ∑ kk in Finset.range (2 * w + 1), g ((kk : ℤ) - w) := by
  rw [arangeSym, List.map_map, sum_map_range]
  simp [Function.comp]

/-- The nested accumulation loop computes exactly the double sum of squared
magnitudes over the `(2·wl+1) × (2·ww+1)` window centered at `(dci, rci)`. -/
lemma noiseFloorSum_spec (m : Mat) (dci rci : ℤ) :
    noiseFloorSum m dci rci 5 5 =
      ∑ i in Finset.range (2 * 5 + 1), ∑ j in Finset.range (2 * 5 + 1),
        Complex.abs (pyGetD m (dci + ((j : ℤ) - 5)) (rci + ((i : ℤ) - 5))) ^ 2 := by
  rw [noiseFloorSum,
    foldl_nested_sum
      (fun wi wj => Complex.abs (pyGetD m (dci + wj) (rci + wi)) ^ 2)
      (arangeSym 5) (arangeSym 5) 0,
    zero_add, sum_arangeSym]
  exact Finset.sum_congr rfl fun i _ => sum_arangeSym _ 5

/-- C3: when `dyn_range` is not supplied, the matrix is first divided in
place by its global maximum magnitude, the noise floor is the average of
`|x|²` over the `(2·5+1) × (2·5+1) = 121`-cell window centered at the
reference cell `(dci, rci)`, and the effective dynamic range equals
`-10·log10(noise_floor)`.  Both `export_rd_matrix_img` (`dci = 30, rci = 20`)
and `plot_rd_matrix` (`dci = 10, rci = 20`) resolve their dynamic range with
exactly this computation. -/
theorem auto_dyn_range_estimation (m : Mat) (dci rci : ℤ)
    (hw : windowOk (scaleByMax m) dci rci 5 5 = true) :
    resolveDynRange m dci rci 5 5 none =
      (scaleByMax m,
        some (-10 * Real.logb 10
          ((∑ i in Finset.range (2 * 5 + 1), ∑ j in Finset.range (2 * 5 + 1),
              Complex.abs (pyGetD (scaleByMax m) (dci + ((j : ℤ) - 5))
                (rci + ((i : ℤ) - 5))) ^ 2) / 121))) := by
  have hcell : ((cellCount 5 5 : ℕ) : ℝ) = 121 := by
    rw [show cellCount 5 5 = 121 from rfl]
    norm_num
  simp only [resolveDynRange, if_pos hw, estDynRange, noiseFloor]
  rw [noiseFloorSum_spec, hcell]

/-- C3 witness: a 6 × 6 all-ones matrix with the reference cell at the
origin (the window wraps via negative indexing, all accesses succeed). -/
theorem auto_dyn_range_estimation_witness :
    windowOk (scaleByMax (List.replicate 6 (List.replicate 6 1))) 0 0 5 5
      = true ∧
    resolveDynRange (List.replicate 6 (List.replicate 6 1)) 0 0 5 5 none =
      (scaleByMax (List.replicate 6 (List.replicate 6 1)),
        some (-10 * Real.logb 10
          ((∑ i in Finset.range (2 * 5 + 1), ∑ j in Finset.range (2 * 5 + 1),
              Complex.abs (pyGetD
                (scaleByMax (List.replicate 6 (List.replicate 6 1)))
                (0 + ((j : ℤ) - 5)) (0 + ((i : ℤ) - 5))) ^ 2) / 121))) :=
  ⟨rfl, auto_dyn_range_estimation _ 0 0 rfl⟩

end RDTools
